import Mathlib

/-!
Shallow embedding of `src/pyro/ops/studentt.py`: the `Gamma` and
`GaussianGamma` unnormalized-density algebra.

Tensors are modelled value-wise at a single batch point: a vector is a
function `ℕ → ℝ` (entries at indices at or beyond the event dimension are
irrelevant), a matrix is `ℕ → ℕ → ℝ`, and batch-shaped scalars are `ℝ`.
Python `assert` failures and raised exceptions are modelled by `Except PyErr`.
A second, shape-level model (`RShape`, further below) embeds the tensor
*shape* semantics of the same operations, for the shape-contract claims.
-/

namespace StudentT

noncomputable section

/-- Python exceptions raised by the source code. -/
inductive PyErr where
  | assertionError
  | notImplementedError
  | typeError
  deriving DecidableEq

/-- Non-normalized Gamma distribution (`class Gamma`, lines 10–31). -/
@[ext]
structure Gamma where
  log_normalizer : ℝ
  alpha : ℝ
  beta : ℝ

/-- `Gamma.log_density(s)` (lines 19–25):
`log_normalizer + (alpha - 1) * s.log() - beta * s`. -/
def Gamma.log_density (g : Gamma) (s : ℝ) : ℝ :=
  g.log_normalizer + (g.alpha - 1) * Real.log s - g.beta * s

/-- `Gamma.logsumexp()` (lines 27–31):
`log_normalizer + lgamma(alpha) - alpha * beta.log()`. -/
def Gamma.logsumexp (g : Gamma) : ℝ :=
  g.log_normalizer + Real.log (Real.Gamma g.alpha) - g.alpha * Real.log g.beta

/-- `class GaussianGamma` (lines 34–76), value model at one batch point.
The source derives `dim()` from `info_vec.size(-1)` (line 78–79); here the
event dimension is carried explicitly and `info_vec`/`precision` are read
only at indices below `dim`. -/
@[ext]
structure GaussianGamma where
  dim : ℕ
  log_normalizer : ℝ
  info_vec : ℕ → ℝ
  precision : ℕ → ℕ → ℝ
  alpha : ℝ
  beta : ℝ

/-- `GaussianGamma.log_density(value, s)` (lines 162–176).
For `value.size(-1) == 0` the code returns
`alpha * s.log() - beta * s + log_normalizer`; otherwise
`result = (-0.5) * precision @ value + info_vec`, then
`alpha * s.log() + ((value * result).sum(-1) - beta) * s + log_normalizer`. -/
def GaussianGamma.log_density (g : GaussianGamma) (value : ℕ → ℝ) (s : ℝ) : ℝ :=
  if g.dim = 0 then
    g.alpha * Real.log s - g.beta * s + g.log_normalizer
  else
    g.alpha * Real.log s +
      ((∑ i in Finset.range g.dim,
          value i * (-(1 / 2 : ℝ) * (∑ j in Finset.range g.dim, g.precision i j * value j)
            + g.info_vec i)) - g.beta) * s
      + g.log_normalizer

/-- `GaussianGamma.__add__` (lines 150–160): asserts `self.dim() == other.dim()`
(line 155, `AssertionError` otherwise) and sums all five fields elementwise. -/
def GaussianGamma.add (g other : GaussianGamma) : Except PyErr GaussianGamma :=
  if g.dim = other.dim then
    .ok ⟨g.dim,
      g.log_normalizer + other.log_normalizer,
      fun i => g.info_vec i + other.info_vec i,
      fun i j => g.precision i j + other.precision i j,
      g.alpha + other.alpha,
      g.beta + other.beta⟩
  else .error .assertionError

/-- `GaussianGamma.event_pad(left, right)` (lines 130–138):
`info_vec` is zero-padded by `left`/`right` on its trailing axis and
`precision` by the same amounts on both trailing axes;
`log_normalizer`, `alpha`, `beta` pass through unchanged. -/
def GaussianGamma.event_pad (g : GaussianGamma) (left right : ℕ) : GaussianGamma :=
  ⟨left + g.dim + right,
   g.log_normalizer,
   fun i => if left ≤ i ∧ i < left + g.dim then g.info_vec (i - left) else 0,
   fun i j => if (left ≤ i ∧ i < left + g.dim) ∧ (left ≤ j ∧ j < left + g.dim)
     then g.precision (i - left) (j - left) else 0,
   g.alpha,
   g.beta⟩

/-- `GaussianGamma.event_permute(perm)` (lines 140–148): asserts
`perm.shape == (self.dim(),)` (line 145), i.e. `perm` is a 1-D index tensor of
length `dim()`, then applies `perm` to the trailing axis of `info_vec` and to
both trailing axes of `precision`. -/
def GaussianGamma.event_permute (g : GaussianGamma) (perm : List ℕ) :
    Except PyErr GaussianGamma :=
  if perm.length = g.dim then
    .ok ⟨g.dim,
      g.log_normalizer,
      fun i => g.info_vec (perm.getD i 0),
      fun i j => g.precision (perm.getD i 0) (perm.getD j 0),
      g.alpha,
      g.beta⟩
  else .error .assertionError

/-- `GaussianGamma.condition(value)` (lines 178–210), conditioning on the
trailing `k` coordinates (`k = value.size(-1)`; asserted `≤ dim()` at
line 194).  With `n = dim() - k`, the code computes
`info_vec' = info_a - P_ab @ value`, `precision' = P_aa`,
`log_normalizer' = log_normalizer`, `alpha' = alpha`, and
`beta' = beta - 0.5 * value^T @ P_bb @ value + value^T @ info_b` (line 209). -/
def GaussianGamma.condition (g : GaussianGamma) (value : ℕ → ℝ) (k : ℕ) :
    Except PyErr GaussianGamma :=
  if k ≤ g.dim then
    .ok ⟨g.dim - k,
      g.log_normalizer,
      fun i => if i < g.dim - k then
          g.info_vec i - ∑ j in Finset.range k, g.precision i (g.dim - k + j) * value j
        else 0,
      fun i j => if i < g.dim - k ∧ j < g.dim - k then g.precision i j else 0,
      g.alpha,
      g.beta
        - (1 / 2 : ℝ) * ∑ j in Finset.range k,
            (∑ l in Finset.range k, g.precision (g.dim - k + j) (g.dim - k + l) * value l)
              * value j
        + ∑ j in Finset.range k, value j * g.info_vec (g.dim - k + j)⟩
  else .error .assertionError

/-- `GaussianGamma.marginalize(left, right)` (lines 213–253).
`marginalize(0, 0)` returns `self` unchanged (lines 227–228); the two-sided
case raises `NotImplementedError` (lines 229–230); every remaining case runs
the Schur-complement computation of lines 231–252 (pure real arithmetic,
which cannot fail in this value model) and then executes
`return GaussianGamma(log_normalizer, info_vec, precision)` (line 253) — a
call that supplies only 3 of the 5 required constructor arguments and
therefore raises `TypeError` in Python before any instance is produced. -/
def GaussianGamma.marginalize (g : GaussianGamma) (left right : ℕ) :
    Except PyErr GaussianGamma :=
  if left = 0 ∧ right = 0 then .ok g
  else if 0 < left ∧ 0 < right then .error .notImplementedError
  else .error .typeError

/-- Lower-triangular Cholesky factor, column by column: the external
`torch.Tensor.cholesky` primitive used at lines 239 and 260.
`cholCols A m` holds the factor entries of the columns `j < m` (any entry
with `j ≥ m` is `0`).  Column `m` is built from the standard recurrences
`L m m = sqrt(A m m - ∑_{k<m} L m k ^ 2)` and, below the diagonal,
`L i m = (A i m - ∑_{k<m} L i k * L m k) / L m m`. -/
def cholCols (A : ℕ → ℕ → ℝ) : ℕ → ℕ → ℕ → ℝ
  | 0 => fun _ _ => 0
  | m + 1 => fun i j =>
    if j < m then cholCols A m i j
    else if j = m then
      if i < m then 0
      else if i = m then
        Real.sqrt (A m m - ∑ k in Finset.range m, cholCols A m m k ^ 2)
      else
        (A i m - ∑ k in Finset.range m, cholCols A m i k * cholCols A m m k) /
          Real.sqrt (A m m - ∑ k in Finset.range m, cholCols A m m k ^ 2)
    else 0

/-- Forward substitution solving `L w = v` for lower-triangular `L`: the
external `torch.Tensor.triangular_solve(·, upper=False)` primitive used at
lines 240, 246 and 261.  `fwdCols L v m` holds the solution entries `i < m`
(any entry with `i ≥ m` is `0`), via
`w i = (v i - ∑_{k<i} L i k * w k) / L i i`. -/
def fwdCols (L : ℕ → ℕ → ℝ) (v : ℕ → ℝ) : ℕ → ℕ → ℝ
  | 0 => fun _ => 0
  | m + 1 => fun i =>
    if i < m then fwdCols L v m i
    else if i = m then
      (v m - ∑ k in Finset.range m, L m k * fwdCols L v m k) / L m m
    else 0

/-- `GaussianGamma.event_logsumexp()` (lines 255–272): with
`chol_P = precision.cholesky()`,
`chol_P_u = triangular_solve(info_vec, chol_P, upper=False)` and
`u_P_u = chol_P_u.pow(2).sum(-1)`, returns
`Gamma(log_normalizer + 0.5 * n * log(2π) - diag(chol_P).log().sum(-1),
       alpha - 0.5 * n + 1,
       beta - 0.5 * u_P_u)`. -/
def GaussianGamma.event_logsumexp (g : GaussianGamma) : Gamma :=
  ⟨g.log_normalizer +
      ((1 / 2 : ℝ) * (g.dim : ℝ) * Real.log (2 * Real.pi)
        - ∑ i in Finset.range g.dim, Real.log (cholCols g.precision g.dim i i)),
   g.alpha - (1 / 2 : ℝ) * (g.dim : ℝ) + 1,
   g.beta - (1 / 2 : ℝ) *
      ∑ i in Finset.range g.dim,
        fwdCols (cholCols g.precision g.dim) g.info_vec g.dim i ^ 2⟩

/-! ### Concrete instances used by counterexamples and witnesses -/

/-- The concrete scenario of the spec (§8): `n = 1`, `precision = [[2.0]]`,
`info_vec = [0.0]`, `alpha = 1.5`, `beta = 0.5`, `log_normalizer = 0.0`. -/
def ggLse : GaussianGamma := ⟨1, 0, fun _ => 0, fun _ _ => 2, 3 / 2, 1 / 2⟩

/-- A dimension-1 instance with `precision = [[2.0]]`, `info_vec = [0.0]`,
`alpha = 1`, `beta = 0`, `log_normalizer = 0`. -/
def ggCond : GaussianGamma := ⟨1, 0, fun _ => 0, fun _ _ => 2, 1, 0⟩

/-- A dimension-2 instance with identity precision. -/
def ggMarg : GaussianGamma :=
  ⟨2, 0, fun _ => 0, fun i j => if i = j then 1 else 0, 1, 1⟩

/-- A degenerate instance with event dimension 0:
`log_normalizer = 7`, `alpha = 2`, `beta = 5`. -/
def ggZero : GaussianGamma := ⟨0, 7, fun _ => 0, fun _ _ => 0, 2, 5⟩

/-! ### Shape-level model

Torch shapes, stored **reversed**: the head of the list is the trailing
(`-1`) size.  This model embeds the tensor-shape semantics of the
structural operations, which is what the constructor assertions of
lines 69–71 inspect. -/

/-- A torch shape, reversed (head = size of the trailing axis). -/
abbrev RShape := List ℕ

/-- `t.size(-1)` (0 for a 0-dimensional tensor). -/
def lastDim (s : RShape) : ℕ := s.headD 0

/-- `t.size(-2)` (0 when fewer than two axes). -/
def lastDim2 (s : RShape) : ℕ := s.tail.headD 0

/-- The three constructor assertions of `GaussianGamma.__init__`
(lines 69–71): `info_vec.dim() >= 1`, `precision.dim() >= 2`, and
`precision.shape[-2:] == info_vec.shape[-1:] * 2`. -/
def initOK (ivS pS : RShape) : Prop :=
  1 ≤ ivS.length ∧ 2 ≤ pS.length ∧
    lastDim pS = lastDim ivS ∧ lastDim2 pS = lastDim ivS

instance (ivS pS : RShape) : Decidable (initOK ivS pS) := by
  unfold initOK; infer_instance

/-- Shapes produced by `expand` (lines 89–96) and `reshape` (lines 98–105):
`info_vec` gets shape `batch_shape + (n,)` and `precision` gets
`batch_shape + (n, n)` (reversed here, so the event sizes are prepended). -/
def expandShapes (batch_shape : RShape) (n : ℕ) : RShape × RShape :=
  (n :: batch_shape, n :: n :: batch_shape)

/-- Shape of a field after `__getitem__` with a tuple of `k` integer batch
indices (lines 107–117): the leading `k` axes are removed, which on the
reversed shape keeps the first `length - k` entries. -/
def getitemShape (s : RShape) (k : ℕ) : RShape := s.take (s.length - k)

/-- Shape of a field after `cat(parts, dim=d)` (lines 119–128) for two
parts, `d` a normalized batch axis (counted from the front of the true
shape, so position `length - 1 - d` of the reversed shape): that axis is
the sum of the two parts' sizes, all other axes unchanged. -/
def catShape (s1 s2 : RShape) (d : ℕ) : RShape :=
  s1.set (s1.length - 1 - d)
    (s1.getD (s1.length - 1 - d) 0 + s2.getD (s2.length - 1 - d) 0)

/-- Shape of `pad(info_vec, (left, right))` (line 135): the trailing axis
grows by `left + right`. -/
def padShape : RShape → ℕ → ℕ → RShape
  | [], _, _ => []
  | a :: t, l, r => (l + a + r) :: t

/-- Shape of `pad(precision, (left, right, left, right))` (line 136): both
trailing axes grow by `left + right`. -/
def padShapePrec : RShape → ℕ → ℕ → RShape
  | a :: b :: t, l, r => (l + a + r) :: (l + b + r) :: t
  | s, _, _ => s

/-- Shapes produced by `event_permute(perm)` (lines 140–148) with
`perm.shape == (permLen,)`: `info_vec[..., perm]` replaces the trailing
axis size by `permLen`, and `precision[..., perm][..., perm, :]` replaces
both trailing axes by `permLen`. -/
def permuteShapes (ivS pS : RShape) (permLen : ℕ) : RShape × RShape :=
  (permLen :: ivS.tail, permLen :: permLen :: pS.tail.tail)

/-- Torch broadcasting of two shapes (reversed shapes align at the head):
sizes must agree or one of them be `1`; a missing axis counts as size `1`. -/
def bcast : RShape → RShape → Option RShape
  | [], t => some t
  | a :: s, [] => some (a :: s)
  | a :: s, b :: t =>
    if a = b ∨ a = 1 ∨ b = 1 then
      (bcast s t).map (fun r => (if a = 1 then b else a) :: r)
    else none

/-- Shapes produced by `condition(value)` (lines 196–210) from the shapes of
`info_vec`, `precision` and `value`: with `m = dim() - value.size(-1)`,
`info_vec' = info_a - P_ab @ value` broadcasts the batch shape of `info_a`
(`ivS.tail`) against that of the matrix-vector product
(`bcast pS.tail.tail vS.tail`), with trailing axis `m`; `precision' = P_aa`
has both trailing axes `m` over `precision`'s batch shape. -/
def conditionShapes (ivS pS vS : RShape) : Option (RShape × RShape) :=
  (bcast pS.tail.tail vS.tail).bind fun pb =>
    (bcast ((lastDim ivS - lastDim vS) :: ivS.tail)
        ((lastDim ivS - lastDim vS) :: pb)).map fun ivr =>
      (ivr, (lastDim ivS - lastDim vS) :: (lastDim ivS - lastDim vS) :: pS.tail.tail)

/-! ### Theorems -/

/-- C9: `marginalize(0, 0)` (and hence `marginalize()` with its default
arguments `left=0, right=0`) returns the instance itself unchanged — so in
particular all five fields of the result are those of `g`. -/
theorem marginalize_zero_zero_identity (g : GaussianGamma) :
    g.marginalize 0 0 = Except.ok g := by
  simp [GaussianGamma.marginalize]

/-- C4: calling `marginalize` with both `left > 0` and `right > 0` raises
`NotImplementedError` rather than returning a result. -/
theorem marginalize_two_sided_not_implemented (g : GaussianGamma)
    (left right : ℕ) (hl : 0 < left) (hr : 0 < right) :
    g.marginalize left right = Except.error PyErr.notImplementedError := by
  have h : ¬(left = 0 ∧ right = 0) := by omega
  simp [GaussianGamma.marginalize, h, hl, hr]

/-- Witness for C4 at `left = right = 1`. -/
theorem marginalize_two_sided_not_implemented_witness :
    ggCond.marginalize 1 1 = Except.error PyErr.notImplementedError :=
  marginalize_two_sided_not_implemented ggCond 1 1 Nat.one_pos Nat.one_pos

/-- C8: `event_pad(left, right)` only zero-pads `info_vec` and `precision`
(by `left`/`right` entries on the trailing axes, the event dimension growing
to `left + dim + right`), while the `log_normalizer`, `alpha` and `beta`
fields of the result are exactly those of `g`, unchanged. -/
theorem event_pad_frame (g : GaussianGamma) (left right : ℕ) :
    (g.event_pad left right).log_normalizer = g.log_normalizer ∧
    (g.event_pad left right).alpha = g.alpha ∧
    (g.event_pad left right).beta = g.beta ∧
    (g.event_pad left right).dim = left + g.dim + right ∧
    (∀ i, (g.event_pad left right).info_vec i =
      if left ≤ i ∧ i < left + g.dim then g.info_vec (i - left) else 0) ∧
    (∀ i j, (g.event_pad left right).precision i j =
      if (left ≤ i ∧ i < left + g.dim) ∧ (left ≤ j ∧ j < left + g.dim)
        then g.precision (i - left) (j - left) else 0) :=
  ⟨rfl, rfl, rfl, rfl, fun _ => rfl, fun _ _ => rfl⟩

/-- C6: for a `GaussianGamma` of event dimension 0, `log_density(value, s)`
is `alpha * log(s) - beta * s + log_normalizer`, which coincides with the
`Gamma.log_density` of the instance built from the same `log_normalizer` and
`beta` once the documented `(alpha - 1)` vs `alpha` convention shift between
the two types is applied (`Gamma.alpha = alpha + 1`). -/
theorem dim_zero_density_eq_gamma (g : GaussianGamma) (h : g.dim = 0)
    (value : ℕ → ℝ) (s : ℝ) (hs : 0 < s) :
    g.log_density value s = g.alpha * Real.log s - g.beta * s + g.log_normalizer ∧
    g.log_density value s =
      Gamma.log_density ⟨g.log_normalizer, g.alpha + 1, g.beta⟩ s := by
  constructor
  · simp [GaussianGamma.log_density, h]
  · simp [GaussianGamma.log_density, Gamma.log_density, h]
    ring

/-- Witness for C6 at the concrete dimension-0 instance `ggZero` and `s = 1`. -/
theorem dim_zero_density_eq_gamma_witness :
    ggZero.log_density (fun _ => 0) 1 =
      Gamma.log_density ⟨ggZero.log_normalizer, ggZero.alpha + 1, ggZero.beta⟩ 1 :=
  (dim_zero_density_eq_gamma ggZero rfl (fun _ => 0) 1 one_pos).2

/-- C3: evaluating the one-sided `marginalize` calls at a concrete instance:
instead of returning a `GaussianGamma` with `alpha` and `beta` passed through
unchanged, both one-sided calls raise `TypeError`, because line 253 executes
`return GaussianGamma(log_normalizer, info_vec, precision)` with only 3 of
the 5 required constructor arguments. -/
theorem marginalize_missing_args_bug :
    ggMarg.marginalize 1 0 = Except.error PyErr.typeError ∧
    ggMarg.marginalize 0 1 = Except.error PyErr.typeError := by
  constructor <;> simp [GaussianGamma.marginalize]

/-- C5: `__add__` with equal `dim()` sums all five fields elementwise, the
result's `log_density` is the pointwise sum of the two operands' log
densities for every state `x` and scale `s > 0` (log-space addition
represents pointwise multiplication of the densities), and `__add__` fails
with an `AssertionError` whenever the two `dim()` differ. -/
theorem add_spec (g1 g2 : GaussianGamma) (h : g1.dim = g2.dim) :
    g1.add g2 = Except.ok
      ⟨g1.dim, g1.log_normalizer + g2.log_normalizer,
        fun i => g1.info_vec i + g2.info_vec i,
        fun i j => g1.precision i j + g2.precision i j,
        g1.alpha + g2.alpha, g1.beta + g2.beta⟩ ∧
    (∀ (x : ℕ → ℝ) (s : ℝ), 0 < s → ∀ g', g1.add g2 = Except.ok g' →
      g'.log_density x s = g1.log_density x s + g2.log_density x s) ∧
    (∀ g3 g4 : GaussianGamma, g3.dim ≠ g4.dim →
      g3.add g4 = Except.error PyErr.assertionError) := by
  have hadd : g1.add g2 = Except.ok
      ⟨g1.dim, g1.log_normalizer + g2.log_normalizer,
        fun i => g1.info_vec i + g2.info_vec i,
        fun i j => g1.precision i j + g2.precision i j,
        g1.alpha + g2.alpha, g1.beta + g2.beta⟩ := by
    simp [GaussianGamma.add, h]
  refine ⟨hadd, ?_, ?_⟩
  · intro x s hs g' hg'
    rw [hadd] at hg'
    injection hg' with hg'
    subst hg'
    by_cases h0 : g1.dim = 0
    · have h2 : g2.dim = 0 := h ▸ h0
      simp only [GaussianGamma.log_density, h0, h2, if_pos rfl, if_true]
      ring
    · have h2 : ¬g2.dim = 0 := fun hc => h0 (h.trans hc)
      have hsum :
          (∑ i in Finset.range g1.dim,
            x i * (-(1 / 2 : ℝ) * (∑ j in Finset.range g1.dim,
                (g1.precision i j + g2.precision i j) * x j)
              + (g1.info_vec i + g2.info_vec i)))
          = (∑ i in Finset.range g1.dim,
              x i * (-(1 / 2 : ℝ) * (∑ j in Finset.range g1.dim,
                  g1.precision i j * x j) + g1.info_vec i))
            + ∑ i in Finset.range g1.dim,
                x i * (-(1 / 2 : ℝ) * (∑ j in Finset.range g1.dim,
                    g2.precision i j * x j) + g2.info_vec i) := by
        rw [← Finset.sum_add_distrib]
        refine Finset.sum_congr rfl fun i _ => ?_
        have hP : (∑ j in Finset.range g1.dim,
              (g1.precision i j + g2.precision i j) * x j)
            = (∑ j in Finset.range g1.dim, g1.precision i j * x j)
              + ∑ j in Finset.range g1.dim, g2.precision i j * x j := by
          rw [← Finset.sum_add_distrib]
          exact Finset.sum_congr rfl fun j _ => by ring
        rw [hP]; ring
      simp only [GaussianGamma.log_density, h0, h2, if_neg, if_false]
      rw [← h]
      rw [hsum]
      ring
  · intro g3 g4 hne
    simp [GaussianGamma.add, hne]

/-- Witness for C5: both summands are the concrete instance `ggCond`. -/
theorem add_spec_witness :
    ggCond.add ggCond = Except.ok
      ⟨ggCond.dim, ggCond.log_normalizer + ggCond.log_normalizer,
        fun i => ggCond.info_vec i + ggCond.info_vec i,
        fun i j => ggCond.precision i j + ggCond.precision i j,
        ggCond.alpha + ggCond.alpha, ggCond.beta + ggCond.beta⟩ :=
  (add_spec ggCond ggCond rfl).1

/-- C2: the conditioning decomposition fails on the code.  At the concrete
instance `ggCond` (`n = 1`, `precision = [[2.]]`, `info_vec = [0.]`,
`alpha = 1`, `beta = 0`, `log_normalizer = 0`), splitting `x = [1.]` into an
empty `left` and `right = [1.]`, with `s = 1`:
`g.log_density(x, 1) = -1` while `g.condition(right).log_density(left, 1) = 1`
(the suffix contribution to `beta` at line 209 enters with the wrong sign),
refuting `g.log_density(x, s) == g.condition(right).log_density(left, s)`. -/
theorem condition_decomposition_bug :
    ggCond.log_density (fun _ => 1) 1 = -1 ∧
    (ggCond.condition (fun _ => 1) 1).map
      (fun c => c.log_density (fun _ => 0) 1) = Except.ok 1 ∧
    (-1 : ℝ) ≠ 1 := by
  refine ⟨?_, ?_, by norm_num⟩
  · simp [GaussianGamma.log_density, ggCond, Finset.sum_range_one, Real.log_one]
  · simp [GaussianGamma.condition, GaussianGamma.log_density, ggCond,
      Except.map, Finset.sum_range_one, Real.log_one]

/-- `cholCols` produces a lower-triangular matrix: every entry strictly
above the diagonal is `0`. -/
theorem cholCols_upper (A : ℕ → ℕ → ℝ) :
    ∀ (m i j : ℕ), i < j → cholCols A m i j = 0 := by
  intro m
  induction m with
  | zero => intro i j _; rfl
  | succ m IH =>
    intro i j hij
    by_cases h1 : j < m
    · simpa [cholCols, h1] using IH i j hij
    · by_cases h2 : j = m
      · subst h2
        simp [cholCols, h1, hij]
      · simp [cholCols, h1, h2]

/-- Entries of `fwdCols` below the computed range are stable under growing
the range. -/
theorem fwdCols_stable (L : ℕ → ℕ → ℝ) (v : ℕ → ℝ) :
    ∀ (m' m i : ℕ), i < m → m ≤ m' → fwdCols L v m' i = fwdCols L v m i := by
  intro m'
  induction m' with
  | zero => intro m i hi hm; exact absurd (Nat.lt_of_lt_of_le hi hm) (Nat.not_lt_zero i)
  | succ m' IH =>
    intro m i hi hm
    rcases Nat.lt_or_ge m' i with hgt | hge
    · omega
    rcases Nat.eq_or_lt_of_le hm with heq | hlt
    · rw [heq]
    · have hm'' : m ≤ m' := by omega
      have hi' : i < m' := Nat.lt_of_lt_of_le hi hm''
      calc fwdCols L v (m' + 1) i = fwdCols L v m' i := by simp [fwdCols, hi']
        _ = fwdCols L v m i := IH m i hi hm''

/-- Uniqueness of the forward-substitution solution: if `L` is lower
triangular with nonzero diagonal on the leading `n × n` block, the entries
computed by `fwdCols` agree with any solution `w` of `L w = v` restricted to
that block. -/
theorem fwdCols_unique (L : ℕ → ℕ → ℝ) (v w : ℕ → ℝ) (n : ℕ)
    (hlow : ∀ i j, i < j → L i j = 0)
    (hne : ∀ i, i < n → L i i ≠ 0)
    (hw : ∀ i, i < n → ∑ k in Finset.range n, L i k * w k = v i) :
    ∀ i, i < n → fwdCols L v n i = w i := by
  intro i
  induction i using Nat.strong_induction_on with
  | _ i IH =>
    intro hi
    have hstep : fwdCols L v n i
        = (v i - ∑ k in Finset.range i, L i k * fwdCols L v i k) / L i i := by
      rw [fwdCols_stable L v n (i + 1) i (Nat.lt_succ_self i) hi]
      simp [fwdCols]
    have hinner : ∀ k ∈ Finset.range i,
        L i k * fwdCols L v i k = L i k * w k := by
      intro k hk
      have hk' : k < i := Finset.mem_range.mp hk
      rw [fwdCols_stable L v i (k + 1) k (Nat.lt_succ_self k) hk',
        ← fwdCols_stable L v n (k + 1) k (Nat.lt_succ_self k) (by omega),
        IH k hk' (by omega)]
    have hsplit : ∑ k in Finset.range n, L i k * w k
        = (∑ k in Finset.range i, L i k * w k) + L i i * w i := by
      rw [← Finset.sum_range_succ]
      symm
      apply Finset.sum_subset (Finset.range_subset.mpr hi)
      intro x hx hnx
      have hix : i < x := by
        simp only [Finset.mem_range] at hx hnx
        omega
      rw [hlow i x hix, zero_mul]
    have hveq := hw i hi
    rw [hsplit] at hveq
    rw [hstep, Finset.sum_congr rfl hinner]
    rw [div_eq_iff (hne i hi), ← hveq]
    ring

/-- C1 (amended): with `L = cholCols precision dim` the factor computed by
the `cholesky` primitive at line 260 (lower triangular by `cholCols_upper`;
the hypotheses state that `precision = L Lᵀ` holds on the event block with a
positive diagonal, i.e. the symmetric positive-definite case), and any `w`
solving `L w = info_vec` on the event block, `event_logsumexp()` returns
exactly the `Gamma` with `alpha' = alpha - 0.5*n + 1`,
`beta' = beta - 0.5 * sum(w^2)` and
`log_normalizer' = log_normalizer + 0.5*n*log(2π) - sum(log(diag(L)))`. -/
theorem event_logsumexp_spec (g : GaussianGamma) (w : ℕ → ℝ)
    (hfact : ∀ i j, i < g.dim → j < g.dim →
      g.precision i j = ∑ k in Finset.range g.dim,
        cholCols g.precision g.dim i k * cholCols g.precision g.dim j k)
    (hpos : ∀ i, i < g.dim → 0 < cholCols g.precision g.dim i i)
    (hw : ∀ i, i < g.dim →
      ∑ k in Finset.range g.dim, cholCols g.precision g.dim i k * w k
        = g.info_vec i) :
    g.event_logsumexp =
      ⟨g.log_normalizer + ((1 / 2 : ℝ) * (g.dim : ℝ) * Real.log (2 * Real.pi)
          - ∑ i in Finset.range g.dim, Real.log (cholCols g.precision g.dim i i)),
       g.alpha - (1 / 2 : ℝ) * (g.dim : ℝ) + 1,
       g.beta - (1 / 2 : ℝ) * ∑ i in Finset.range g.dim, w i ^ 2⟩ := by
  have hU : ∀ i, i < g.dim →
      fwdCols (cholCols g.precision g.dim) g.info_vec g.dim i = w i :=
    fwdCols_unique _ _ _ _ (fun i j hij => cholCols_upper g.precision g.dim i j hij)
      (fun i hi => ne_of_gt (hpos i hi)) hw
  have hsum : ∑ i in Finset.range g.dim,
      fwdCols (cholCols g.precision g.dim) g.info_vec g.dim i ^ 2
      = ∑ i in Finset.range g.dim, w i ^ 2 :=
    Finset.sum_congr rfl fun i hIn => by rw [hU i (Finset.mem_range.mp hIn)]
  unfold GaussianGamma.event_logsumexp
  rw [hsum]

/-- C1, refuted part: at the spec's own concrete scenario (`ggLse`: `n = 1`,
`precision = [[2.0]]`, `info_vec = [0.0]`, `alpha = 1.5`, `beta = 0.5`,
`log_normalizer = 0.0`), `event_logsumexp()` yields `alpha' = 2.0`
(`alpha - 0.5*n + 1 = 1.5 - 0.5 + 1 = 2`), not the claimed `alpha' = 1.0`. -/
theorem event_logsumexp_concrete_alpha_counterexample :
    ggLse.event_logsumexp.alpha = 2 ∧ ggLse.event_logsumexp.alpha ≠ 1 := by
  have h : ggLse.event_logsumexp.alpha
      = ggLse.alpha - (1 / 2 : ℝ) * (ggLse.dim : ℝ) + 1 := rfl
  have h2 : ggLse.event_logsumexp.alpha = 2 := by
    rw [h]
    norm_num [ggLse]
  exact ⟨h2, by rw [h2]; norm_num⟩

/-- The 1×1 case of the Cholesky factor. -/
theorem cholCols_one_zero_zero (A : ℕ → ℕ → ℝ) :
    cholCols A 1 0 0 = Real.sqrt (A 0 0) := by
  show cholCols A (0 + 1) 0 0 = Real.sqrt (A 0 0)
  simp [cholCols]

/-- Witness for C1 at the concrete scenario `ggLse`: since `L = [[sqrt 2]]`
and `u = 0`, `event_logsumexp()` is the `Gamma` with
`log_normalizer' = 0.5*log(2π) - 0.5*log 2`, `alpha' = 2`, `beta' = 0.5`. -/
theorem event_logsumexp_spec_witness :
    ggLse.event_logsumexp =
      ⟨(1 / 2 : ℝ) * Real.log (2 * Real.pi) - (1 / 2 : ℝ) * Real.log 2,
       2, 1 / 2⟩ := by
  have hchol : cholCols ggLse.precision 1 0 0 = Real.sqrt 2 := by
    rw [cholCols_one_zero_zero]
    norm_num [ggLse]
  have hfact : ∀ i j, i < ggLse.dim → j < ggLse.dim →
      ggLse.precision i j = ∑ k in Finset.range ggLse.dim,
        cholCols ggLse.precision ggLse.dim i k * cholCols ggLse.precision ggLse.dim j k := by
    intro i j hi hj
    obtain rfl := Nat.lt_one_iff.mp hi
    obtain rfl := Nat.lt_one_iff.mp hj
    rw [show ggLse.dim = 1 from rfl, Finset.sum_range_one, hchol]
    rw [Real.mul_self_sqrt (by norm_num)]
    norm_num [ggLse]
  have hpos : ∀ i, i < ggLse.dim → 0 < cholCols ggLse.precision ggLse.dim i i := by
    intro i hi
    obtain rfl := Nat.lt_one_iff.mp hi
    rw [show ggLse.dim = 1 from rfl, hchol]
    exact Real.sqrt_pos.mpr (by norm_num)
  have hw : ∀ i, i < ggLse.dim →
      ∑ k in Finset.range ggLse.dim,
        cholCols ggLse.precision ggLse.dim i k * (fun _ : ℕ => (0 : ℝ)) k
        = ggLse.info_vec i := by
    intro i hi
    obtain rfl := Nat.lt_one_iff.mp hi
    simp [ggLse]
  rw [event_logsumexp_spec ggLse (fun _ => 0) hfact hpos hw]
  refine Gamma.ext ?_ ?_ ?_
  · show ggLse.log_normalizer + ((1 / 2 : ℝ) * (ggLse.dim : ℝ) * Real.log (2 * Real.pi)
        - ∑ i in Finset.range ggLse.dim,
            Real.log (cholCols ggLse.precision ggLse.dim i i)) = _
    rw [show ggLse.dim = 1 from rfl, Finset.sum_range_one, hchol,
      Real.log_sqrt (by norm_num : (0 : ℝ) ≤ 2)]
    norm_num [ggLse]
    ring
  · norm_num [ggLse]
  · norm_num [ggLse]

/-- C7: each shape-contract assertion fails exactly on its stated violation
and on nothing else (no silent broadcast or truncation): the constructor
assertions fail iff `info_vec` has fewer than 1 dimension, `precision` fewer
than 2, or `precision`'s trailing two dimensions are not both equal to
`info_vec`'s trailing dimension; `__add__` raises iff the operands' `dim()`
differ; `condition` raises iff the value's trailing dimension exceeds
`dim()`; `event_permute` raises iff `perm`'s shape is not `(dim(),)`. -/
theorem shape_assert_spec :
    (∀ ivS pS : RShape, ¬ initOK ivS pS ↔
      (ivS.length < 1 ∨ pS.length < 2 ∨
        ¬(lastDim pS = lastDim ivS ∧ lastDim2 pS = lastDim ivS))) ∧
    (∀ g1 g2 : GaussianGamma,
      g1.add g2 = Except.error PyErr.assertionError ↔ g1.dim ≠ g2.dim) ∧
    (∀ (g : GaussianGamma) (v : ℕ → ℝ) (k : ℕ),
      g.condition v k = Except.error PyErr.assertionError ↔ g.dim < k) ∧
    (∀ (g : GaussianGamma) (perm : List ℕ),
      g.event_permute perm = Except.error PyErr.assertionError ↔
        perm.length ≠ g.dim) := by
  refine ⟨?_, ?_, ?_, ?_⟩
  · intro ivS pS
    constructor
    · intro h
      by_cases h1 : 1 ≤ ivS.length
      · by_cases h2 : 2 ≤ pS.length
        · exact Or.inr (Or.inr fun hcd => h ⟨h1, h2, hcd.1, hcd.2⟩)
        · exact Or.inr (Or.inl (by omega))
      · exact Or.inl (by omega)
    · rintro (h | h | h) ⟨hA, hB, hC, hD⟩
      · omega
      · omega
      · exact h ⟨hC, hD⟩
  · intro g1 g2
    by_cases h : g1.dim = g2.dim <;> simp [GaussianGamma.add, h]
  · intro g v k
    by_cases h : k ≤ g.dim <;> simp [GaussianGamma.condition, h] <;> omega
  · intro g perm
    by_cases h : perm.length = g.dim <;> simp [GaussianGamma.event_permute, h]

/-- Witness for C7 at concrete operands of differing dimension. -/
theorem shape_assert_spec_witness :
    ggCond.add ggMarg = Except.error PyErr.assertionError :=
  (shape_assert_spec.2.1 ggCond ggMarg).mpr (by decide)

/-- Taking at least one entry of a reversed shape keeps its trailing size. -/
theorem lastDim_take (s : RShape) (m : ℕ) (h : 1 ≤ m) :
    lastDim (s.take m) = lastDim s := by
  cases s with
  | nil => simp
  | cons a t =>
    cases m with
    | zero => omega
    | succ m => simp [lastDim]

/-- Taking at least two entries of a reversed shape keeps its next-to-trailing
size. -/
theorem lastDim2_take (s : RShape) (m : ℕ) (h : 2 ≤ m) :
    lastDim2 (s.take m) = lastDim2 s := by
  cases s with
  | nil => simp [lastDim2]
  | cons a t =>
    cases m with
    | zero => omega
    | succ m =>
      simp only [List.take_succ_cons, lastDim2, List.tail_cons]
      exact lastDim_take t m (by omega)

/-- Setting an entry at position `≥ 1` of a reversed shape keeps its trailing
size. -/
theorem lastDim_set (l : RShape) (p v : ℕ) (h : 1 ≤ p) :
    lastDim (l.set p v) = lastDim l := by
  cases l with
  | nil => simp
  | cons a t =>
    cases p with
    | zero => omega
    | succ p => simp [lastDim]

/-- Setting an entry at position `≥ 2` of a reversed shape keeps its
next-to-trailing size. -/
theorem lastDim2_set (l : RShape) (p v : ℕ) (h : 2 ≤ p) :
    lastDim2 (l.set p v) = lastDim2 l := by
  cases l with
  | nil => simp [lastDim2]
  | cons a t =>
    cases p with
    | zero => omega
    | succ p =>
      simp only [List.set_cons_succ, lastDim2, List.tail_cons]
      exact lastDim_set t p v (by omega)

/-- Broadcasting two reversed shapes with equal heads keeps that head. -/
theorem bcast_cons_same (a : ℕ) (s t : RShape) :
    bcast (a :: s) (a :: t) = (bcast s t).map (fun r => a :: r) := by
  simp [bcast]

/-- C10: every operation that returns a `GaussianGamma`, applied to field
shapes satisfying the constructor invariant and the operation's own
preconditions, yields field shapes that again satisfy the invariant, so the
constructor assertions in the result's construction never fire.  In order:
`expand`/`reshape` (which build `batch_shape + (n,)` and
`batch_shape + (n, n)` directly), batch `__getitem__` with `k` integer
indices, binary `cat` along a batch axis `d`, `event_pad`, `event_permute`
with a `(dim(),)`-shaped `perm`, `__add__` on broadcast-compatible
equal-`dim()` operands, and `condition`. -/
theorem ops_preserve_shape_invariant :
    (∀ (bs : RShape) (n : ℕ),
      initOK (expandShapes bs n).1 (expandShapes bs n).2) ∧
    (∀ (ivS pS : RShape) (k : ℕ), initOK ivS pS →
      k + 1 ≤ ivS.length → k + 2 ≤ pS.length →
      initOK (getitemShape ivS k) (getitemShape pS k)) ∧
    (∀ (ivS1 pS1 ivS2 pS2 : RShape) (d : ℕ), initOK ivS1 pS1 →
      d + 2 ≤ ivS1.length → d + 3 ≤ pS1.length →
      initOK (catShape ivS1 ivS2 d) (catShape pS1 pS2 d)) ∧
    (∀ (ivS pS : RShape) (l r : ℕ), initOK ivS pS →
      initOK (padShape ivS l r) (padShapePrec pS l r)) ∧
    (∀ (ivS pS : RShape), initOK ivS pS →
      initOK (permuteShapes ivS pS (lastDim ivS)).1
        (permuteShapes ivS pS (lastDim ivS)).2) ∧
    (∀ (ivS1 pS1 ivS2 pS2 iv p : RShape), initOK ivS1 pS1 → initOK ivS2 pS2 →
      lastDim ivS1 = lastDim ivS2 →
      bcast ivS1 ivS2 = some iv → bcast pS1 pS2 = some p → initOK iv p) ∧
    (∀ (ivS pS vS iv' p' : RShape), initOK ivS pS →
      lastDim vS ≤ lastDim ivS →
      conditionShapes ivS pS vS = some (iv', p') → initOK iv' p') := by
  refine ⟨?_, ?_, ?_, ?_, ?_, ?_, ?_⟩
  · intro bs n
    exact ⟨by simp [expandShapes], by simp [expandShapes], rfl, rfl⟩
  · intro ivS pS k hOK hk1 hk2
    obtain ⟨h1, h2, h3, h4⟩ := hOK
    refine ⟨?_, ?_, ?_, ?_⟩
    · simp only [getitemShape, List.length_take]
      omega
    · simp only [getitemShape, List.length_take]
      omega
    · show lastDim (pS.take (pS.length - k)) = lastDim (ivS.take (ivS.length - k))
      rw [lastDim_take _ _ (by omega), lastDim_take _ _ (by omega), h3]
    · show lastDim2 (pS.take (pS.length - k)) = lastDim (ivS.take (ivS.length - k))
      rw [lastDim2_take _ _ (by omega), lastDim_take _ _ (by omega), h4]
  · intro ivS1 pS1 ivS2 pS2 d hOK hd1 hd2
    obtain ⟨h1, h2, h3, h4⟩ := hOK
    refine ⟨?_, ?_, ?_, ?_⟩
    · simp only [catShape, List.length_set]
      omega
    · simp only [catShape, List.length_set]
      omega
    · show lastDim (catShape pS1 pS2 d) = lastDim (catShape ivS1 ivS2 d)
      unfold catShape
      rw [lastDim_set _ _ _ (by omega), lastDim_set _ _ _ (by omega), h3]
    · show lastDim2 (catShape pS1 pS2 d) = lastDim (catShape ivS1 ivS2 d)
      unfold catShape
      rw [lastDim2_set _ _ _ (by omega), lastDim_set _ _ _ (by omega), h4]
  · intro ivS pS l r hOK
    obtain ⟨h1, h2, h3, h4⟩ := hOK
    cases ivS with
    | nil => simp at h1
    | cons a t =>
      cases pS with
      | nil => simp at h2
      | cons b pS' =>
        cases pS' with
        | nil => simp at h2
        | cons c u =>
          simp only [lastDim] at h3
          simp only [lastDim2, List.tail_cons] at h4
          simp only [List.headD_cons] at h3 h4
          subst h3
          subst h4
          exact ⟨by simp [padShape], by simp [padShapePrec],
            rfl, rfl⟩
  · intro ivS pS hOK
    exact ⟨by simp [permuteShapes], by simp [permuteShapes], rfl, rfl⟩
  · intro ivS1 pS1 ivS2 pS2 iv p hOK1 hOK2 hdim hbi hbp
    obtain ⟨h1a, h1b, h1c, h1d⟩ := hOK1
    obtain ⟨h2a, h2b, h2c, h2d⟩ := hOK2
    cases ivS1 with
    | nil => simp at h1a
    | cons a t1 =>
      cases ivS2 with
      | nil => simp at h2a
      | cons a2 t2 =>
        simp only [lastDim, List.headD_cons] at hdim
        subst hdim
        rw [bcast_cons_same] at hbi
        obtain ⟨r, hr, rfl⟩ := Option.map_eq_some'.mp hbi
        cases pS1 with
        | nil => simp at h1b
        | cons b1 q1 =>
          cases q1 with
          | nil => simp at h1b
          | cons c1 u1 =>
            cases pS2 with
            | nil => simp at h2b
            | cons b2 q2 =>
              cases q2 with
              | nil => simp at h2b
              | cons c2 u2 =>
                simp only [lastDim, lastDim2, List.headD_cons,
                  List.tail_cons] at h1c h1d h2c h2d
                subst h1c; subst h1d; subst h2c; subst h2d
                rw [bcast_cons_same] at hbp
                obtain ⟨p1, hp1, rfl⟩ := Option.map_eq_some'.mp hbp
                rw [bcast_cons_same] at hp1
                obtain ⟨p2, hp2, rfl⟩ := Option.map_eq_some'.mp hp1
                exact ⟨by simp, by simp, rfl, rfl⟩
  · intro ivS pS vS iv' p' hOK hk hcond
    simp only [conditionShapes, Option.bind_eq_some] at hcond
    obtain ⟨pb, hpb, hmap⟩ := hcond
    obtain ⟨ivr, hivr, hpair⟩ := Option.map_eq_some'.mp hmap
    injection hpair with hiv hp
    subst hiv
    subst hp
    rw [bcast_cons_same] at hivr
    obtain ⟨r, hr, rfl⟩ := Option.map_eq_some'.mp hivr
    exact ⟨by simp, by simp, rfl, rfl⟩

/-- Witness for C10: `condition` shapes at `info_vec : (2,)`,
`precision : (2, 2)`, `value : (1,)` yield `(1,)` and `(1, 1)`, which again
satisfy the constructor invariant. -/
theorem ops_preserve_shape_invariant_witness :
    initOK [1] [1, 1] :=
  ops_preserve_shape_invariant.2.2.2.2.2.2 [2] [2, 2] [1] [1] [1, 1]
    (by decide) (by decide) (by decide)

end

end StudentT
